import Mathlib

/-!
Shallow embedding of `src/ORM.ts` (Yobuligo/ORM.TypeScript).

JavaScript objects are modelled as references (`Ref`) into a heap, so that
object identity (the `indexOf` test in `save`) and in-place mutation
(`dataObject.id = ...`) are captured faithfully.  The heap is a list of
record values; allocating a fresh object appends to the heap, so a fresh
object is never identity-equal to an existing one.

The external store (Firebase REST) holds two documents per connection:
the collection document at `{base}/{path}.json` and the identifier pool at
`{base}/uuid.json`.  Sequential (non-concurrent) execution is modelled by
pure state passing; each awaited round trip is a state transformation.
Fire-and-forget writes (the `sync` PUT and the `resetIdPool` PATCH are not
awaited in the source) matter only for error propagation and are modelled
separately in the `EState` error model below.
-/

namespace ORMSpec

/-- A persisted record: the contractually required integer identifier
(`id: number`, initialised to `0` by `DataObject`) plus the caller-defined
fields, abstracted as a single `payload`. -/
structure Rec where
  id : Nat
  payload : Nat
  deriving DecidableEq, Repr, Inhabited

/-- A JavaScript object reference: an index into the heap. -/
abbrev Ref := Nat

/-- State of one `DataAccessObject` together with its store connection:
`heap` holds the live objects (indices are object identities), `cache` is
`this.dataObjects` (a list of references), `storeColl` is the collection
document (`none` = absent), `storeUuid` is the identifier-pool document
(`none` = absent, `some n` = `{uuid: n}`). -/
structure State where
  heap : List Rec
  cache : List Ref
  storeColl : Option (List Rec)
  storeUuid : Option Nat
  deriving DecidableEq, Repr

/-- Dereference: read the record an object reference points at. -/
def getRec (s : State) (r : Ref) : Rec := s.heap.getD r default

/-- In-place field assignment `dataObject.id = n` (other fields kept). -/
def setId (s : State) (r : Ref) (n : Nat) : State :=
  { s with heap := s.heap.set r { s.heap.getD r default with id := n } }

/-! ### UUIdProviderDefault -/

/-- `UUIdProviderDefault.resetIdPool`: builds `{uuid: 1}`, PATCHes it to
`uuid.json` (fire-and-forget in the source; sequentially the write lands),
and returns it. -/
def resetIdPool (s : State) : Nat × State :=
  (1, { s with storeUuid := some 1 })

/-- `UUIdProviderDefault.updateIdPool`: PUTs the given pool value to
`uuid.json` (awaited in the source). -/
def updateIdPool (s : State) (n : Nat) : State :=
  { s with storeUuid := some n }

/-- `UUIdProviderDefault.next`: read the pool document; if absent,
`resetIdPool` (returns 1); otherwise `idPool.uuid++`, persist via
`updateIdPool`, return the incremented value. -/
def uuidNext (s : State) : Nat × State :=
  match s.storeUuid with
  | none => resetIdPool s
  | some n => (n + 1, updateIdPool s (n + 1))

/-! ### DataAccessObject -/

/-- `DataAccessObject.sync`: `PUT` of `JSON.stringify(this.dataObjects)`
to the collection document (fire-and-forget in the source; sequentially
the write lands). -/
def syncOp (s : State) : State :=
  { s with storeColl := some (s.cache.map (fun r => getRec s r)) }

/-- `DataAccessObject.findAll`: GET the collection document; iterate its
entries (`for prop in json` yields nothing when the document is absent),
`convertJSONtoEntity` each row into a freshly allocated shallow copy, and
replace `this.dataObjects` with the new list.  Fresh objects are modelled
by appending the rows to the heap; the returned references are the
consecutive fresh indices. -/
def findAllOp (s : State) : List Ref × State :=
  let rows := s.storeColl.getD []
  let refs := List.range' s.heap.length rows.length
  (refs, { s with heap := s.heap ++ rows, cache := refs })

/-- `DataAccessObject.findById`: `findAll`, then linear scan of the fresh
cache for the first record whose `id` equals the argument. -/
def findByIdOp (s : State) (n : Nat) : Option Ref × State :=
  let p := findAllOp s
  (p.1.find? (fun x => (getRec p.2 x).id == n), p.2)

/-- `DataAccessObject.count`: length of `findAll`'s result. -/
def countOp (s : State) : Nat × State :=
  let p := findAllOp s
  (p.1.length, p.2)

/-- `DataAccessObject.first`: `findAll`, then index `[0]` (`undefined`
when empty). -/
def firstOp (s : State) : Option Ref × State :=
  let p := findAllOp s
  (p.1.head?, p.2)

/-- `DataAccessObject.last`: `findAll`, then the element at
`length - 1`, or `undefined` when empty. -/
def lastOp (s : State) : Option Ref × State :=
  let p := findAllOp s
  (p.1.getLast?, p.2)

/-- `DataAccessObject.isEmpty`: `findAll`'s length equals 0. -/
def isEmptyOp (s : State) : Bool × State :=
  let p := findAllOp s
  (p.1.length == 0, p.2)

/-- `DataAccessObject.contains`: true iff `findById(dataObject.id)` is
defined. -/
def containsOp (s : State) (r : Ref) : Bool × State :=
  let p := findByIdOp s (getRec s r).id
  (p.1.isSome, p.2)

/-- `DataAccessObject.save`: identity test `indexOf(dataObject) !== -1`
against the current cache.  Present: `update` = `sync`, return the
argument.  Absent: `findAll`, allocate `next()`, assign it to the
argument's `id` field in place, `push` onto the cache, `sync`, return the
argument. -/
def saveOp (s : State) (r : Ref) : Ref × State :=
  if s.cache.contains r then
    (r, syncOp s)
  else
    let s1 := (findAllOp s).2
    let pn := uuidNext s1
    let s2 := setId pn.2 r pn.1
    let s3 := { s2 with cache := s2.cache ++ [r] }
    (r, syncOp s3)

/-- `DataAccessObject.delete`: `findAll`; `find` the first cached record
whose `id` equals the argument's `id`; if none, return the argument with
no further effect; otherwise `splice` it out at its `indexOf` position,
`sync`, and return the argument. -/
def deleteOp (s : State) (r : Ref) : Ref × State :=
  let p := findAllOp s
  match p.1.find? (fun x => (getRec p.2 x).id == (getRec p.2 r).id) with
  | none => (r, p.2)
  | some tb =>
      let i := p.2.cache.indexOf tb
      let s2 := { p.2 with cache := p.2.cache.eraseIdx i }
      (r, syncOp s2)

/-- `DataAccessObject.deleteAll`: DELETE the collection document, then
clear `this.dataObjects`.  The identifier pool is untouched. -/
def deleteAllOp (s : State) : State :=
  { s with storeColl := none, cache := [] }

/-! ### Path resolution -/

/-- JavaScript `String.prototype.toLowerCase`: lower-case every
character. -/
def lowerName (s : String) : String := ⟨s.data.map Char.toLower⟩

/-- `DataAccessObject.initPath`: if the type declares a static `path`
use it; the source then tests `startsWith("/")` and computes
`substring(1, length)` but never assigns the result back, so the override
is kept verbatim, leading separator included.  Without an override the
path is the type name lower-cased. -/
def initPath (overridePath : Option String) (typeName : String) : String :=
  match overridePath with
  | some p => p
  | none => lowerName typeName

/-- `DataAccessObject.getJSONPath`: base URL, separator, resolved path,
`.json` suffix. -/
def getJSONPath (url : String) (overridePath : Option String)
    (typeName : String) : String :=
  url ++ "/" ++ initPath overridePath typeName ++ ".json"

/-! ### Sequential runs (for the allocation-monotonicity invariant) -/

/-- One caller-issued operation against the Data Access Object. -/
inductive Op where
  | doSave (r : Ref)
  | doDelete (r : Ref)
  | doDeleteAll
  | doFindAll
  | doFindById (n : Nat)
  deriving DecidableEq, Repr

/-- State transition of one operation. -/
def stepOp (s : State) : Op → State
  | .doSave r => (saveOp s r).2
  | .doDelete r => (deleteOp s r).2
  | .doDeleteAll => deleteAllOp s
  | .doFindAll => (findAllOp s).2
  | .doFindById n => (findByIdOp s n).2

/-- Identifiers the Identifier Provider hands out during one operation:
only `save`'s create branch allocates, and it allocates exactly the value
`next()` returns on the post-`findAll` state. -/
def opAllocs (s : State) : Op → List Nat
  | .doSave r => if s.cache.contains r then [] else [(uuidNext (findAllOp s).2).1]
  | _ => []

/-- Final state of a sequential run. -/
def runState : State → List Op → State
  | s, [] => s
  | s, op :: ops => runState (stepOp s op) ops

/-- All identifiers allocated during a sequential run, in order. -/
def runAllocs : State → List Op → List Nat
  | _, [] => []
  | s, op :: ops => opAllocs s op ++ runAllocs (stepOp s op) ops

/-! ### Error model

Each HTTP round trip may fail (network error, failed write, malformed
response).  A rejected promise is `Except.error ()`.  A `fetch` whose
promise is awaited propagates its failure to the operation's caller; a
`fetch` whose promise is dropped (the `sync` PUT and the `resetIdPool`
PATCH in the source have no `await`) surfaces nothing — the operation
resolves and the write is silently lost. -/

/-- Which transport calls fail during the run under consideration. -/
structure Failures where
  collGet : Bool
  collPut : Bool
  collDelete : Bool
  uuidGet : Bool
  uuidPut : Bool
  uuidPatch : Bool
  deriving DecidableEq, Repr

/-- State plus the failure schedule. -/
structure EState where
  st : State
  fail : Failures
  deriving DecidableEq, Repr

/-- `sync` with failures: the PUT is not awaited, so its failure is not
observed by the caller; the write is lost. -/
def syncE (e : EState) : Except Unit EState :=
  if e.fail.collPut then .ok e
  else .ok { e with st := syncOp e.st }

/-- `findAll` with failures: the GET is awaited, so its failure rejects
the returned promise. -/
def findAllE (e : EState) : Except Unit (List Ref × EState) :=
  if e.fail.collGet then .error ()
  else
    let p := findAllOp e.st
    .ok (p.1, { e with st := p.2 })

/-- `resetIdPool` with failures: the PATCH is not awaited, so its failure
is not observed; on failure the initial pool value is lost but 1 is still
returned. -/
def resetIdPoolE (e : EState) : Except Unit (Nat × EState) :=
  if e.fail.uuidPatch then .ok (1, e)
  else .ok (1, { e with st := { e.st with storeUuid := some 1 } })

/-- `updateIdPool` with failures: the PUT is awaited, so its failure
rejects the returned promise. -/
def updateIdPoolE (e : EState) (n : Nat) : Except Unit EState :=
  if e.fail.uuidPut then .error ()
  else .ok { e with st := updateIdPool e.st n }

/-- `next` with failures: `getIdPool` (awaited GET) may reject; then
either `resetIdPool` or `updateIdPool` as in the source. -/
def uuidNextE (e : EState) : Except Unit (Nat × EState) :=
  if e.fail.uuidGet then .error ()
  else
    match e.st.storeUuid with
    | none => resetIdPoolE e
    | some n => do
        let e' ← updateIdPoolE e (n + 1)
        .ok (n + 1, e')

/-- `save` with failures, mirroring `saveOp`. -/
def saveE (e : EState) (r : Ref) : Except Unit (Ref × EState) :=
  if e.st.cache.contains r then do
    let e' ← syncE e
    .ok (r, e')
  else do
    let p ← findAllE e
    let q ← uuidNextE p.2
    let e2 := { q.2 with st := setId q.2.st r q.1 }
    let e3 := { e2 with st := { e2.st with cache := e2.st.cache ++ [r] } }
    let e4 ← syncE e3
    .ok (r, e4)

/-- `delete` with failures, mirroring `deleteOp`. -/
def deleteE (e : EState) (r : Ref) : Except Unit (Ref × EState) := do
  let p ← findAllE e
  let e1 := p.2
  match p.1.find? (fun x => (getRec e1.st x).id == (getRec e1.st r).id) with
  | none => .ok (r, e1)
  | some tb =>
      let i := e1.st.cache.indexOf tb
      let e2 := { e1 with st := { e1.st with cache := e1.st.cache.eraseIdx i } }
      let e3 ← syncE e2
      .ok (r, e3)

/-- `deleteAll` with failures: the DELETE is awaited, so its failure
rejects the returned promise. -/
def deleteAllE (e : EState) : Except Unit EState :=
  if e.fail.collDelete then .error ()
  else .ok { e with st := deleteAllOp e.st }

/-! ### Concrete states used by the witnesses -/

/-- One live record already identity-present in the cache. -/
def sCacheHit : State :=
  { heap := [⟨7, 3⟩], cache := [0], storeColl := none, storeUuid := none }

/-- One live record not in the cache; empty store. -/
def sCacheMiss : State :=
  { heap := [⟨0, 3⟩], cache := [], storeColl := none, storeUuid := none }

/-- Fresh pool document. -/
def sPoolAbsent : State :=
  { heap := [], cache := [], storeColl := none, storeUuid := none }

/-- Pool document holding counter 5. -/
def sPoolFive : State :=
  { heap := [], cache := [], storeColl := none, storeUuid := some 5 }

/-- Store holding two rows, ids 1 and 2. -/
def sTwoRows : State :=
  { heap := [⟨0, 9⟩], cache := [], storeColl := some [⟨1, 10⟩, ⟨2, 20⟩],
    storeUuid := some 2 }

/-- Caller-held record whose id 2 matches a stored row. -/
def sDelHit : State :=
  { heap := [⟨2, 9⟩], cache := [], storeColl := some [⟨1, 10⟩, ⟨2, 20⟩],
    storeUuid := some 2 }

/-- Invariant tying the pool document to the identifiers allocated so
far on the connection: either nothing was allocated yet and the pool
document is absent, or the pool value bounds every allocated identifier,
the allocations are strictly increasing, and the first one was 1. -/
def UuidInv (s : State) (ids : List Nat) : Prop :=
  (s.storeUuid = none ∧ ids = []) ∨
  (∃ n, s.storeUuid = some n ∧ ids.head? = some 1 ∧
    ids.Pairwise (· < ·) ∧ ∀ i ∈ ids, i ≤ n)

/-- Failure schedule: only the collection PUT fails. -/
def fPutFails : Failures :=
  { collGet := false, collPut := true, collDelete := false,
    uuidGet := false, uuidPut := false, uuidPatch := false }

/-- Failure schedule: only the collection GET fails. -/
def fGetFails : Failures :=
  { collGet := true, collPut := false, collDelete := false,
    uuidGet := false, uuidPut := false, uuidPatch := false }

/-- Failure schedule: only the pool PUT fails. -/
def fUuidPutFails : Failures :=
  { collGet := false, collPut := false, collDelete := false,
    uuidGet := false, uuidPut := true, uuidPatch := false }

/-- Failure schedule: only the pool PATCH fails. -/
def fPatchFails : Failures :=
  { collGet := false, collPut := false, collDelete := false,
    uuidGet := false, uuidPut := false, uuidPatch := true }

/-- Failure schedule: only the collection DELETE fails. -/
def fDeleteFails : Failures :=
  { collGet := false, collPut := false, collDelete := true,
    uuidGet := false, uuidPut := false, uuidPatch := false }

/-- Failure schedule: only the pool GET fails. -/
def fUuidGetFails : Failures :=
  { collGet := false, collPut := false, collDelete := false,
    uuidGet := true, uuidPut := false, uuidPatch := false }

/-- In-cache record with the collection PUT failing. -/
def eSaveFail : EState := ⟨sCacheHit, fPutFails⟩

/-! ## Basic lemmas -/

/-- Reading the fresh references produced by a full read recovers exactly
the rows of the collection document, in order. -/
theorem map_getD_range' (heap rows : List Rec) :
    (List.range' heap.length rows.length).map
      (fun r => (heap ++ rows).getD r default) = rows := by
  induction rows generalizing heap with
  | nil => rfl
  | cons a t ih =>
    have h1 : (heap ++ a :: t).getD heap.length default = a := by
      rw [List.getD_append_right heap (a :: t) default heap.length (le_refl _)]
      simp
    have e : heap ++ a :: t = (heap ++ [a]) ++ t := by simp
    have e2 : heap.length + 1 = (heap ++ [a]).length := by simp
    rw [List.length_cons, List.range'_succ, List.map_cons, h1, e, e2, ih (heap ++ [a])]

theorem mem_range'_le {b n x : Nat} (h : x ∈ List.range' b n) : b ≤ x := by
  rcases List.mem_range'.1 h with ⟨i, _, rfl⟩
  omega

theorem eraseIdx_indexOf (l : List Ref) (a : Ref) :
    l.eraseIdx (l.indexOf a) = l.erase a := by
  induction l with
  | nil => rfl
  | cons b t ih =>
    by_cases h : b == a
    · simp [List.indexOf_cons, List.erase_cons, h]
    · simp [List.indexOf_cons, List.erase_cons, h, ih]

/-! ### findAll facts -/

theorem findAllOp_fst (s : State) :
    (findAllOp s).1 = List.range' s.heap.length (s.storeColl.getD []).length := rfl

theorem findAllOp_cache (s : State) : (findAllOp s).2.cache = (findAllOp s).1 := rfl

theorem findAllOp_heap (s : State) :
    (findAllOp s).2.heap = s.heap ++ s.storeColl.getD [] := rfl

theorem findAllOp_storeColl (s : State) : (findAllOp s).2.storeColl = s.storeColl := rfl

theorem findAllOp_storeUuid (s : State) : (findAllOp s).2.storeUuid = s.storeUuid := rfl

theorem findAllOp_map_getRec (s : State) :
    (findAllOp s).1.map (fun r => getRec (findAllOp s).2 r) = s.storeColl.getD [] := by
  have := map_getD_range' s.heap (s.storeColl.getD [])
  simpa [findAllOp, getRec] using this

theorem findAllOp_fresh (s : State) :
    ∀ x ∈ (findAllOp s).1, s.heap.length ≤ x := by
  intro x hx
  exact mem_range'_le (by simpa [findAllOp] using hx)

theorem getRec_findAllOp_old (s : State) (r : Ref) (h : r < s.heap.length) :
    getRec (findAllOp s).2 r = getRec s r := by
  unfold getRec
  rw [findAllOp_heap]
  exact List.getD_append _ _ _ _ h

theorem findAllOp_heap_length (s : State) :
    s.heap.length ≤ (findAllOp s).2.heap.length := by
  simp [findAllOp]

/-! ### Identifier-provider facts -/

theorem uuidNext_heap (s : State) : (uuidNext s).2.heap = s.heap := by
  cases h : s.storeUuid <;> simp [uuidNext, resetIdPool, updateIdPool, h]

theorem uuidNext_cache (s : State) : (uuidNext s).2.cache = s.cache := by
  cases h : s.storeUuid <;> simp [uuidNext, resetIdPool, updateIdPool, h]

theorem uuidNext_storeColl (s : State) : (uuidNext s).2.storeColl = s.storeColl := by
  cases h : s.storeUuid <;> simp [uuidNext, resetIdPool, updateIdPool, h]

theorem uuidNext_storeUuid (s : State) :
    (uuidNext s).2.storeUuid = some (uuidNext s).1 := by
  cases h : s.storeUuid <;> simp [uuidNext, resetIdPool, updateIdPool, h]

theorem uuidNext_one (s : State) (h : s.storeUuid = none) : (uuidNext s).1 = 1 := by
  simp [uuidNext, resetIdPool, h]

theorem uuidNext_succ (s : State) (n : Nat) (h : s.storeUuid = some n) :
    (uuidNext s).1 = n + 1 := by
  simp [uuidNext, updateIdPool, h]

/-! ### setId and sync facts -/

theorem setId_cache (s : State) (r : Ref) (n : Nat) : (setId s r n).cache = s.cache := rfl

theorem setId_storeColl (s : State) (r : Ref) (n : Nat) :
    (setId s r n).storeColl = s.storeColl := rfl

theorem setId_storeUuid (s : State) (r : Ref) (n : Nat) :
    (setId s r n).storeUuid = s.storeUuid := rfl

theorem setId_heap_length (s : State) (r : Ref) (n : Nat) :
    (setId s r n).heap.length = s.heap.length := by
  simp [setId]

theorem getRec_setId_self (s : State) (r : Ref) (n : Nat) (h : r < s.heap.length) :
    getRec (setId s r n) r = { getRec s r with id := n } := by
  simp [setId, getRec, List.getD_eq_getElem?_getD, List.getElem?_set_self h]

theorem getRec_setId_ne (s : State) (r x : Ref) (n : Nat) (h : r ≠ x) :
    getRec (setId s r n) x = getRec s x := by
  simp [setId, getRec, List.getD_eq_getElem?_getD, List.getElem?_set_ne h]

theorem syncOp_heap (s : State) : (syncOp s).heap = s.heap := rfl

theorem syncOp_cache (s : State) : (syncOp s).cache = s.cache := rfl

theorem syncOp_storeUuid (s : State) : (syncOp s).storeUuid = s.storeUuid := rfl

theorem syncOp_storeColl (s : State) :
    (syncOp s).storeColl = some (s.cache.map (fun r => getRec s r)) := rfl

/-! ### save branch lemmas -/

theorem saveOp_of_mem (s : State) (r : Ref) (h : r ∈ s.cache) :
    saveOp s r = (r, syncOp s) := by
  simp [saveOp, h]

theorem saveOp_of_not_mem (s : State) (r : Ref) (h : r ∉ s.cache) :
    saveOp s r =
      (r, syncOp { setId (uuidNext (findAllOp s).2).2 r (uuidNext (findAllOp s).2).1 with
                    cache := (setId (uuidNext (findAllOp s).2).2 r
                               (uuidNext (findAllOp s).2).1).cache ++ [r] }) := by
  simp [saveOp, h]

/-! ## Claim theorems -/

/-- C2: `next()` reads the Identifier Pool document; if absent it
initialises the pool with counter 1, persists it and returns 1; if
present it increments the stored counter, persists the new value and
returns it.  Nothing else of the state is touched. -/
theorem uuidNext_spec (s : State) :
    (s.storeUuid = none →
      (uuidNext s).1 = 1 ∧ (uuidNext s).2 = { s with storeUuid := some 1 }) ∧
    (∀ n, s.storeUuid = some n →
      (uuidNext s).1 = n + 1 ∧
      (uuidNext s).2 = { s with storeUuid := some (n + 1) }) := by
  constructor
  · intro h
    simp [uuidNext, resetIdPool, h]
  · intro n h
    simp [uuidNext, updateIdPool, h]

/-- Witness for C2: a fresh pool yields 1; a pool holding 5 yields 6. -/
theorem uuidNext_spec_witness :
    (uuidNext sPoolAbsent).1 = 1 ∧ (uuidNext sPoolFive).1 = 6 :=
  ⟨((uuidNext_spec sPoolAbsent).1 rfl).1, ((uuidNext_spec sPoolFive).2 5 rfl).1⟩

/-- C5 (evaluation at the failing input): for the override path
`/creatures` on type `Animal` the code resolves the collection path to
`/creatures` — the leading separator is NOT stripped, because the
`substring` result is discarded; the claimed result is `creatures`.
Without an override the path is the lower-cased type name, as claimed. -/
theorem initPath_override_keeps_separator :
    initPath (some "/creatures") "Animal" = "/creatures" ∧
    initPath none "Animal" = "animal" := by
  constructor
  · rfl
  · rfl

/-- C4: `findAll` reads the collection document; if absent it returns the
empty sequence; otherwise it produces exactly one record per entry, in
the document's order; the local cache is replaced entirely by the freshly
built list of new objects (every new reference is fresh, so no previous
cache element survives); the read writes nothing to the store. -/
theorem findAllOp_spec (s : State) :
    (s.storeColl = none → (findAllOp s).1 = [] ∧ (findAllOp s).2.cache = []) ∧
    (∀ rows, s.storeColl = some rows →
      (findAllOp s).1.map (fun r => getRec (findAllOp s).2 r) = rows) ∧
    (findAllOp s).2.cache = (findAllOp s).1 ∧
    (∀ x ∈ (findAllOp s).2.cache, s.heap.length ≤ x) ∧
    (∀ r ∈ s.cache, r < s.heap.length → r ∉ (findAllOp s).2.cache) ∧
    (findAllOp s).2.storeColl = s.storeColl ∧
    (findAllOp s).2.storeUuid = s.storeUuid := by
  refine ⟨?_, ?_, rfl, ?_, ?_, rfl, rfl⟩
  · intro h
    simp [findAllOp, h]
  · intro rows h
    have hm := findAllOp_map_getRec s
    rw [h] at hm
    simpa using hm
  · intro x hx
    exact findAllOp_fresh s x hx
  · intro r hrc hlt hmem
    exact absurd (findAllOp_fresh s r hmem) (Nat.not_le.mpr hlt)

/-- Witness for C4: an absent document yields nothing; a two-row document
yields exactly its rows in order. -/
theorem findAllOp_spec_witness :
    (findAllOp sPoolAbsent).1 = [] ∧
    (findAllOp sTwoRows).1.map (fun r => getRec (findAllOp sTwoRows).2 r)
      = [⟨1, 10⟩, ⟨2, 20⟩] :=
  ⟨((findAllOp_spec sPoolAbsent).1 rfl).1,
   (findAllOp_spec sTwoRows).2.1 [⟨1, 10⟩, ⟨2, 20⟩] rfl⟩

/-- C1: `save` dispatches on object identity against the current cache.
If the argument is identity-present, the full local cache is pushed to
the store and the argument is returned with nothing reassigned (heap,
cache and pool untouched).  Otherwise the cache is refreshed via
`findAll`, a fresh identifier is allocated by the provider and assigned
to the argument's `id` field in place (other fields kept), the argument
is appended to the refreshed cache, the full cache is pushed to the
store, and the same instance is returned. -/
theorem saveOp_spec (s : State) (r : Ref) :
    (saveOp s r).1 = r ∧
    (r ∈ s.cache →
      (saveOp s r).2.storeColl = some (s.cache.map (fun x => getRec s x)) ∧
      (saveOp s r).2.heap = s.heap ∧
      (saveOp s r).2.cache = s.cache ∧
      (saveOp s r).2.storeUuid = s.storeUuid) ∧
    (r ∉ s.cache → r < s.heap.length →
      (getRec (saveOp s r).2 r).id = (uuidNext (findAllOp s).2).1 ∧
      (getRec (saveOp s r).2 r).payload = (getRec s r).payload ∧
      (saveOp s r).2.cache = (findAllOp s).1 ++ [r] ∧
      (saveOp s r).2.storeColl =
        some ((saveOp s r).2.cache.map (fun x => getRec (saveOp s r).2 x)) ∧
      (saveOp s r).2.storeUuid = some (uuidNext (findAllOp s).2).1) := by
  refine ⟨?_, ?_, ?_⟩
  · by_cases h : r ∈ s.cache <;> simp [saveOp, h]
  · intro h
    rw [saveOp_of_mem s r h]
    exact ⟨rfl, rfl, rfl, rfl⟩
  · intro h hlt
    rw [saveOp_of_not_mem s r h]
    have hlt1 : r < (uuidNext (findAllOp s).2).2.heap.length := by
      rw [uuidNext_heap]
      calc r < s.heap.length := hlt
        _ ≤ (findAllOp s).2.heap.length := findAllOp_heap_length s
    have hrec : getRec (setId (uuidNext (findAllOp s).2).2 r
        (uuidNext (findAllOp s).2).1) r
        = { getRec (uuidNext (findAllOp s).2).2 r
              with id := (uuidNext (findAllOp s).2).1 } :=
      getRec_setId_self _ _ _ hlt1
    have hsame : getRec (uuidNext (findAllOp s).2).2 r = getRec s r := by
      have h1 : getRec (uuidNext (findAllOp s).2).2 r = getRec (findAllOp s).2 r := by
        simp [getRec, uuidNext_heap]
      rw [h1, getRec_findAllOp_old s r hlt]
    refine ⟨?_, ?_, ?_, rfl, ?_⟩
    · show (getRec (setId (uuidNext (findAllOp s).2).2 r
          (uuidNext (findAllOp s).2).1) r).id = _
      rw [hrec]
    · show (getRec (setId (uuidNext (findAllOp s).2).2 r
          (uuidNext (findAllOp s).2).1) r).payload = _
      rw [hrec, hsame]
    · show (setId (uuidNext (findAllOp s).2).2 r
          (uuidNext (findAllOp s).2).1).cache ++ [r] = _
      rw [setId_cache, uuidNext_cache, findAllOp_cache]
    · show (setId (uuidNext (findAllOp s).2).2 r
          (uuidNext (findAllOp s).2).1).storeUuid = _
      rw [setId_storeUuid, uuidNext_storeUuid]

/-- Witness for C1: an identity-present record is pushed unchanged; a
fresh record gets the allocated identifier and is appended to the
refreshed cache. -/
theorem saveOp_spec_witness :
    (saveOp sCacheHit 0).2.storeColl
      = some (sCacheHit.cache.map (fun x => getRec sCacheHit x)) ∧
    (getRec (saveOp sCacheMiss 0).2 0).id = (uuidNext (findAllOp sCacheMiss).2).1 ∧
    (saveOp sCacheMiss 0).2.cache = (findAllOp sCacheMiss).1 ++ [0] :=
  ⟨((saveOp_spec sCacheHit 0).2.1 (by decide)).1,
   ((saveOp_spec sCacheMiss 0).2.2 (by decide) (by decide)).1,
   ((saveOp_spec sCacheMiss 0).2.2 (by decide) (by decide)).2.2.1⟩

/-! ### Further save/find/delete helper lemmas -/

theorem getRec_heap_congr {s t : State} (h : s.heap = t.heap) (r : Ref) :
    getRec s r = getRec t r := by
  simp [getRec, h]

theorem saveOp_create_cache (s : State) (r : Ref) (h : r ∉ s.cache) :
    (saveOp s r).2.cache = (findAllOp s).1 ++ [r] := by
  rw [saveOp_of_not_mem s r h]
  show (setId (uuidNext (findAllOp s).2).2 r (uuidNext (findAllOp s).2).1).cache ++ [r] = _
  rw [setId_cache, uuidNext_cache, findAllOp_cache]

theorem saveOp_create_mem_cache (s : State) (r : Ref) (h : r ∉ s.cache) :
    r ∈ (saveOp s r).2.cache := by
  rw [saveOp_create_cache s r h]
  exact List.mem_append_right _ (List.mem_singleton.mpr rfl)

theorem saveOp_create_storeUuid (s : State) (r : Ref) (h : r ∉ s.cache) :
    (saveOp s r).2.storeUuid = some ((uuidNext (findAllOp s).2).1) := by
  rw [saveOp_of_not_mem s r h]
  show (setId (uuidNext (findAllOp s).2).2 r (uuidNext (findAllOp s).2).1).storeUuid = _
  rw [setId_storeUuid, uuidNext_storeUuid]

theorem saveOp_create_id (s : State) (r : Ref) (h : r ∉ s.cache)
    (h2 : r < s.heap.length) :
    (getRec (saveOp s r).2 r).id = (uuidNext (findAllOp s).2).1 := by
  rw [saveOp_of_not_mem s r h]
  have hlt1 : r < (uuidNext (findAllOp s).2).2.heap.length := by
    rw [uuidNext_heap]
    calc r < s.heap.length := h2
      _ ≤ (findAllOp s).2.heap.length := findAllOp_heap_length s
  show (getRec (setId (uuidNext (findAllOp s).2).2 r
      (uuidNext (findAllOp s).2).1) r).id = _
  rw [getRec_setId_self _ _ _ hlt1]

theorem saveOp_create_getRec_other (s : State) (r x : Ref) (h : r ∉ s.cache)
    (hx : r ≠ x) :
    getRec (saveOp s r).2 x = getRec (findAllOp s).2 x := by
  rw [saveOp_of_not_mem s r h]
  show getRec (setId (uuidNext (findAllOp s).2).2 r
      (uuidNext (findAllOp s).2).1) x = _
  rw [getRec_setId_ne _ _ _ _ hx]
  exact getRec_heap_congr (uuidNext_heap _) x

theorem saveOp_create_storeColl (s : State) (r : Ref) (h : r ∉ s.cache) :
    (saveOp s r).2.storeColl =
      some ((saveOp s r).2.cache.map (fun x => getRec (saveOp s r).2 x)) := by
  rw [saveOp_of_not_mem s r h]
  rfl

theorem saveOp_heap_length (s : State) (r : Ref) :
    s.heap.length ≤ (saveOp s r).2.heap.length := by
  by_cases h : r ∈ s.cache
  · rw [saveOp_of_mem s r h]
    exact le_refl _
  · rw [saveOp_of_not_mem s r h]
    show s.heap.length ≤ (setId (uuidNext (findAllOp s).2).2 r
        (uuidNext (findAllOp s).2).1).heap.length
    rw [setId_heap_length, uuidNext_heap]
    exact findAllOp_heap_length s

theorem saveOp_create_row_mem (s : State) (r : Ref) (h : r ∉ s.cache) :
    getRec (saveOp s r).2 r ∈ (saveOp s r).2.storeColl.getD [] := by
  rw [saveOp_create_storeColl s r h]
  show getRec (saveOp s r).2 r
      ∈ (saveOp s r).2.cache.map (fun x => getRec (saveOp s r).2 x)
  exact List.mem_map_of_mem _ (saveOp_create_mem_cache s r h)

theorem findByIdOp_isSome (s : State) (n : Nat)
    (h : ∃ row ∈ s.storeColl.getD [], row.id = n) :
    (findByIdOp s n).1.isSome = true := by
  rcases h with ⟨row, hrow, hid⟩
  show ((findAllOp s).1.find? (fun x => (getRec (findAllOp s).2 x).id == n)).isSome
      = true
  rw [List.find?_isSome]
  rw [← findAllOp_map_getRec s] at hrow
  rcases List.mem_map.1 hrow with ⟨x, hx, hxe⟩
  exact ⟨x, hx, by rw [hxe, hid]; exact beq_self_eq_true n⟩

theorem findByIdOp_id (s : State) (n : Nat) (x : Ref)
    (h : (findByIdOp s n).1 = some x) :
    (getRec (findByIdOp s n).2 x).id = n := by
  have h' : (findAllOp s).1.find? (fun y => (getRec (findAllOp s).2 y).id == n)
      = some x := h
  have hp := List.find?_some h'
  show (getRec (findAllOp s).2 x).id = n
  simpa using hp

theorem findByIdOp_none (s : State) (n : Nat)
    (h : ∀ row ∈ s.storeColl.getD [], row.id ≠ n) :
    (findByIdOp s n).1 = none := by
  show (findAllOp s).1.find? (fun y => (getRec (findAllOp s).2 y).id == n) = none
  rw [List.find?_eq_none]
  intro x hx
  have hmem : getRec (findAllOp s).2 x ∈ s.storeColl.getD [] := by
    rw [← findAllOp_map_getRec s]
    exact List.mem_map_of_mem _ hx
  simpa using h _ hmem

theorem deleteOp_none_eq (s : State) (r : Ref)
    (hf : (findAllOp s).1.find?
      (fun x => (getRec (findAllOp s).2 x).id == (getRec (findAllOp s).2 r).id)
      = none) :
    deleteOp s r = (r, (findAllOp s).2) := by
  simp [deleteOp, hf]

theorem deleteOp_some_eq (s : State) (r : Ref) (tb : Ref)
    (hf : (findAllOp s).1.find?
      (fun x => (getRec (findAllOp s).2 x).id == (getRec (findAllOp s).2 r).id)
      = some tb) :
    deleteOp s r =
      (r, syncOp { (findAllOp s).2 with
            cache := (findAllOp s).2.cache.eraseIdx
                      ((findAllOp s).2.cache.indexOf tb) }) := by
  simp [deleteOp, hf]

/-! ### More claim theorems -/

/-- C7: after `save` of a not-yet-cached record, `findById` of the
identifier the save assigned finds a record carrying exactly that
identifier; and for any identifier with no matching row in the freshly
loaded collection (in particular, an absent collection), `findById`
returns the absent marker (a normal result, not a failure). -/
theorem findById_roundtrip (s : State) (r : Ref) (n : Nat)
    (h1 : r ∉ s.cache) (_h2 : r < s.heap.length) :
    ((findByIdOp (saveOp s r).2 ((getRec (saveOp s r).2 r).id)).1.isSome = true ∧
     ∀ x, (findByIdOp (saveOp s r).2 ((getRec (saveOp s r).2 r).id)).1 = some x →
       (getRec (findByIdOp (saveOp s r).2 ((getRec (saveOp s r).2 r).id)).2 x).id
         = (getRec (saveOp s r).2 r).id) ∧
    ((∀ row ∈ s.storeColl.getD [], row.id ≠ n) → (findByIdOp s n).1 = none) := by
  refine ⟨⟨?_, ?_⟩, ?_⟩
  · exact findByIdOp_isSome _ _ ⟨_, saveOp_create_row_mem s r h1, rfl⟩
  · intro x hx
    exact findByIdOp_id _ _ x hx
  · exact findByIdOp_none s n

/-- Witness for C7: saving a fresh record into an empty store, then
looking its identifier up, succeeds; looking up 7 in the empty
collection yields the absent marker. -/
theorem findById_roundtrip_witness :
    (findByIdOp (saveOp sCacheMiss 0).2
      ((getRec (saveOp sCacheMiss 0).2 0).id)).1.isSome = true ∧
    (findByIdOp sCacheMiss 7).1 = none :=
  ⟨(findById_roundtrip sCacheMiss 0 7 (by decide) (by decide)).1.1,
   (findById_roundtrip sCacheMiss 0 7 (by decide) (by decide)).2 (by decide)⟩

/-- C8: `delete` refreshes the cache via `findAll` and scans it for the
argument's identifier.  No match: the argument is returned unchanged and
the state is exactly the refreshed one — no store write, collection
contents unchanged.  Match: exactly that cached entry (the first
identifier match, itself a fresh copy distinct from the argument) is
removed, the full cache is pushed to the store, the original argument is
returned. -/
theorem deleteOp_spec (s : State) (r : Ref) (h : r < s.heap.length) :
    (deleteOp s r).1 = r ∧
    getRec (deleteOp s r).2 r = getRec s r ∧
    ((findAllOp s).1.find?
        (fun x => (getRec (findAllOp s).2 x).id == (getRec (findAllOp s).2 r).id)
        = none →
      (deleteOp s r).2 = (findAllOp s).2 ∧
      (deleteOp s r).2.storeColl = s.storeColl) ∧
    (∀ tb, (findAllOp s).1.find?
        (fun x => (getRec (findAllOp s).2 x).id == (getRec (findAllOp s).2 r).id)
        = some tb →
      tb ≠ r ∧
      (deleteOp s r).2.cache = (findAllOp s).2.cache.erase tb ∧
      (deleteOp s r).2.storeColl =
        some ((deleteOp s r).2.cache.map (fun x => getRec (deleteOp s r).2 x)) ∧
      (deleteOp s r).2.heap = (findAllOp s).2.heap ∧
      (deleteOp s r).2.storeUuid = s.storeUuid) := by
  refine ⟨?_, ?_, ?_, ?_⟩
  · rcases hf : (findAllOp s).1.find?
        (fun x => (getRec (findAllOp s).2 x).id == (getRec (findAllOp s).2 r).id)
        with _ | tb
    · rw [deleteOp_none_eq s r hf]
    · rw [deleteOp_some_eq s r tb hf]
  · have hh : (deleteOp s r).2.heap = (findAllOp s).2.heap := by
      rcases hf : (findAllOp s).1.find?
          (fun x => (getRec (findAllOp s).2 x).id == (getRec (findAllOp s).2 r).id)
          with _ | tb
      · rw [deleteOp_none_eq s r hf]
      · rw [deleteOp_some_eq s r tb hf]
        rfl
    rw [getRec_heap_congr hh r]
    exact getRec_findAllOp_old s r h
  · intro hf
    rw [deleteOp_none_eq s r hf]
    exact ⟨rfl, findAllOp_storeColl s⟩
  · intro tb hf
    have hfr : s.heap.length ≤ tb := findAllOp_fresh s tb (List.mem_of_find?_eq_some hf)
    refine ⟨?_, ?_, ?_, ?_, ?_⟩
    · intro he
      rw [he] at hfr
      exact absurd hfr (Nat.not_le.mpr h)
    · rw [deleteOp_some_eq s r tb hf]
      show (findAllOp s).2.cache.eraseIdx ((findAllOp s).2.cache.indexOf tb) = _
      exact eraseIdx_indexOf _ tb
    · rw [deleteOp_some_eq s r tb hf]
      rfl
    · rw [deleteOp_some_eq s r tb hf]
      rfl
    · rw [deleteOp_some_eq s r tb hf]
      rfl

/-- Witness for C8: deleting an id-0 record from a store holding ids 1
and 2 is a no-op on the store; deleting an id-2 record removes exactly
the cached copy (reference 2) carrying id 2. -/
theorem deleteOp_spec_witness :
    (deleteOp sTwoRows 0).1 = 0 ∧
    (deleteOp sTwoRows 0).2.storeColl = sTwoRows.storeColl ∧
    (deleteOp sDelHit 0).2.cache = (findAllOp sDelHit).2.cache.erase 2 := by
  have h1 := deleteOp_spec sTwoRows 0 (by decide)
  have h2 := deleteOp_spec sDelHit 0 (by decide)
  exact ⟨h1.1, (h1.2.2.1 (by decide)).2, (h2.2.2.2 2 (by decide)).2.1⟩

/-- C9: `deleteAll` deletes the collection document, clears the local
cache, leaves the Identifier Pool (and the heap) untouched, and a
subsequent `findAll` yields the empty sequence. -/
theorem deleteAllOp_spec (s : State) :
    (deleteAllOp s).storeColl = none ∧
    (deleteAllOp s).cache = [] ∧
    (deleteAllOp s).storeUuid = s.storeUuid ∧
    (deleteAllOp s).heap = s.heap ∧
    (findAllOp (deleteAllOp s)).1 = [] :=
  ⟨rfl, rfl, rfl, rfl, rfl⟩

/-! ### Identifier-allocation invariant over sequential runs -/

theorem deleteOp_storeUuid (s : State) (r : Ref) :
    (deleteOp s r).2.storeUuid = s.storeUuid := by
  rcases hf : (findAllOp s).1.find?
      (fun x => (getRec (findAllOp s).2 x).id == (getRec (findAllOp s).2 r).id)
      with _ | tb
  · rw [deleteOp_none_eq s r hf]
    rfl
  · rw [deleteOp_some_eq s r tb hf]
    rfl

theorem saveOp_storeUuid_mem (s : State) (r : Ref) (h : r ∈ s.cache) :
    (saveOp s r).2.storeUuid = s.storeUuid := by
  rw [saveOp_of_mem s r h]
  rfl

theorem uuidInv_congr {s t : State} {ids : List Nat}
    (h : t.storeUuid = s.storeUuid) (hi : UuidInv s ids) : UuidInv t ids := by
  rcases hi with ⟨ha, hb⟩ | ⟨n, ha, hb, hc, hd⟩
  · exact Or.inl ⟨by rw [h, ha], hb⟩
  · exact Or.inr ⟨n, by rw [h, ha], hb, hc, hd⟩

theorem uuidInv_step (s : State) (ids : List Nat) (op : Op) (h : UuidInv s ids) :
    UuidInv (stepOp s op) (ids ++ opAllocs s op) := by
  cases op with
  | doSave r =>
    by_cases hm : r ∈ s.cache
    · have ha : opAllocs s (Op.doSave r) = [] := by simp [opAllocs, hm]
      rw [ha, List.append_nil]
      exact uuidInv_congr (saveOp_storeUuid_mem s r hm) h
    · have ha : opAllocs s (Op.doSave r) = [(uuidNext (findAllOp s).2).1] := by
        simp [opAllocs, hm]
      have hu : (stepOp s (Op.doSave r)).storeUuid
          = some ((uuidNext (findAllOp s).2).1) := saveOp_create_storeUuid s r hm
      rw [ha]
      rcases h with ⟨ha1, ha2⟩ | ⟨n, ha1, ha2, ha3, ha4⟩
      · subst ha2
        have hv : (uuidNext (findAllOp s).2).1 = 1 :=
          uuidNext_one _ (by rw [findAllOp_storeUuid]; exact ha1)
        refine Or.inr ⟨1, by rw [hu, hv], ?_, ?_, ?_⟩
        · rw [List.nil_append]
          show some ((uuidNext (findAllOp s).2).1) = some 1
          rw [hv]
        · rw [List.nil_append]
          exact List.pairwise_singleton _ _
        · rw [List.nil_append]
          intro i hi
          rw [List.mem_singleton] at hi
          rw [hi, hv]
      · have hv : (uuidNext (findAllOp s).2).1 = n + 1 :=
          uuidNext_succ _ n (by rw [findAllOp_storeUuid]; exact ha1)
        refine Or.inr ⟨n + 1, by rw [hu, hv], ?_, ?_, ?_⟩
        · rw [List.head?_append, ha2]
          rfl
        · refine List.pairwise_append.mpr ⟨ha3, List.pairwise_singleton _ _, ?_⟩
          intro a haa b hbb
          rw [List.mem_singleton] at hbb
          have := ha4 a haa
          rw [hbb, hv]
          omega
        · intro i hi
          rcases List.mem_append.1 hi with hil | hir
          · exact Nat.le_succ_of_le (ha4 i hil)
          · rw [List.mem_singleton] at hir
            rw [hir, hv]
  | doDelete r =>
    have ha : opAllocs s (Op.doDelete r) = [] := rfl
    rw [ha, List.append_nil]
    exact uuidInv_congr (deleteOp_storeUuid s r) h
  | doDeleteAll =>
    rw [show opAllocs s Op.doDeleteAll = [] from rfl, List.append_nil]
    exact uuidInv_congr rfl h
  | doFindAll =>
    rw [show opAllocs s Op.doFindAll = [] from rfl, List.append_nil]
    exact uuidInv_congr (findAllOp_storeUuid s) h
  | doFindById n =>
    rw [show opAllocs s (Op.doFindById n) = [] from rfl, List.append_nil]
    exact uuidInv_congr (findAllOp_storeUuid s) h

theorem uuidInv_run (ops : List Op) :
    ∀ (s : State) (ids : List Nat), UuidInv s ids →
      UuidInv (runState s ops) (ids ++ runAllocs s ops) := by
  induction ops with
  | nil =>
    intro s ids h
    simpa [runState, runAllocs] using h
  | cons op ops ih =>
    intro s ids h
    have h2 := ih (stepOp s op) (ids ++ opAllocs s op) (uuidInv_step s ids op h)
    simpa [runState, runAllocs, List.append_assoc] using h2

/-- C3: over any sequential run against a connection whose pool document
starts absent, the identifiers the provider hands out (exactly those
`save` assigns to not-yet-cached records) are strictly increasing in
allocation order, and the first one is 1. -/
theorem runAllocs_monotone (s : State) (ops : List Op) (h : s.storeUuid = none) :
    (runAllocs s ops).Pairwise (· < ·) ∧
    (∀ v, (runAllocs s ops).head? = some v → v = 1) := by
  have hinv := uuidInv_run ops s [] (Or.inl ⟨h, rfl⟩)
  rw [List.nil_append] at hinv
  rcases hinv with ⟨_, hnil⟩ | ⟨n, _, hhead, hpw, _⟩
  · rw [hnil]
    exact ⟨List.Pairwise.nil, fun v hv => by simp at hv⟩
  · refine ⟨hpw, fun v hv => ?_⟩
    have := hhead.symm.trans hv
    exact (Option.some_inj.mp this).symm

/-- Witness for C3: two creates with a read in between allocate [1, 2],
strictly increasing with first value 1. -/
theorem runAllocs_monotone_witness :
    sCacheMiss.storeUuid = none ∧
    (runAllocs sCacheMiss [Op.doSave 0, Op.doFindAll, Op.doSave 0]).Pairwise (· < ·) ∧
    runAllocs sCacheMiss [Op.doSave 0, Op.doFindAll, Op.doSave 0] = [1, 2] :=
  ⟨rfl, (runAllocs_monotone sCacheMiss [Op.doSave 0, Op.doFindAll, Op.doSave 0] rfl).1,
   by decide⟩

/-- C10: a read that rebuilds the cache replaces the saved instance by a
fresh shallow copy.  After `save` the instance is identity-present; after
the following `findAll` it is not; saving it again therefore takes the
create branch: its identifier is overwritten with the next allocated
value (old + 1), it is appended to the cache again, and a distinct cached
copy still carrying the old identifier remains alongside it. -/
theorem stale_cache_duplicate (s : State) (r : Ref)
    (h1 : r ∉ s.cache) (h2 : r < s.heap.length) :
    r ∈ (saveOp s r).2.cache ∧
    r ∉ (findAllOp (saveOp s r).2).2.cache ∧
    (getRec (saveOp (findAllOp (saveOp s r).2).2 r).2 r).id
      = (getRec (saveOp s r).2 r).id + 1 ∧
    r ∈ (saveOp (findAllOp (saveOp s r).2).2 r).2.cache ∧
    ∃ c ∈ (saveOp (findAllOp (saveOp s r).2).2 r).2.cache, c ≠ r ∧
      (getRec (saveOp (findAllOp (saveOp s r).2).2 r).2 c).id
        = (getRec (saveOp s r).2 r).id := by
  have hr1 : r < (saveOp s r).2.heap.length :=
    Nat.lt_of_lt_of_le h2 (saveOp_heap_length s r)
  have hb : r ∉ (findAllOp (saveOp s r).2).2.cache := by
    intro hmem
    exact absurd (findAllOp_fresh _ r hmem) (Nat.not_le.mpr hr1)
  have hr2 : r < (findAllOp (saveOp s r).2).2.heap.length :=
    Nat.lt_of_lt_of_le hr1 (findAllOp_heap_length _)
  have hid1 : (getRec (saveOp s r).2 r).id = (uuidNext (findAllOp s).2).1 :=
    saveOp_create_id s r h1 h2
  have hsu2 : (findAllOp (findAllOp (saveOp s r).2).2).2.storeUuid
      = some ((uuidNext (findAllOp s).2).1) := by
    rw [findAllOp_storeUuid, findAllOp_storeUuid]
    exact saveOp_create_storeUuid s r h1
  have hv2 : (uuidNext (findAllOp (findAllOp (saveOp s r).2).2).2).1
      = (uuidNext (findAllOp s).2).1 + 1 :=
    uuidNext_succ _ _ hsu2
  refine ⟨saveOp_create_mem_cache s r h1, hb, ?_, saveOp_create_mem_cache _ r hb, ?_⟩
  · rw [saveOp_create_id _ r hb hr2, hv2, hid1]
  · have hrow : getRec (saveOp s r).2 r
        ∈ (findAllOp (saveOp s r).2).2.storeColl.getD [] := by
      rw [findAllOp_storeColl]
      exact saveOp_create_row_mem s r h1
    rw [← findAllOp_map_getRec ((findAllOp (saveOp s r).2).2)] at hrow
    rcases List.mem_map.1 hrow with ⟨c, hc, hce⟩
    have hcfresh : (findAllOp (saveOp s r).2).2.heap.length ≤ c :=
      findAllOp_fresh _ c hc
    have hcr : r ≠ c := by
      intro he
      rw [← he] at hcfresh
      exact absurd hcfresh (Nat.not_le.mpr hr2)
    refine ⟨c, ?_, fun he => hcr he.symm, ?_⟩
    · rw [saveOp_create_cache _ r hb]
      exact List.mem_append_left _ hc
    · rw [saveOp_create_getRec_other _ r c hb hcr, hce]

/-- Witness for C10: one record, empty store; save, read, save again:
the identifier jumps from 1 to 2 and the instance left the cache after
the read. -/
theorem stale_cache_duplicate_witness :
    (getRec (saveOp (findAllOp (saveOp sCacheMiss 0).2).2 0).2 0).id
      = (getRec (saveOp sCacheMiss 0).2 0).id + 1 ∧
    0 ∉ (findAllOp (saveOp sCacheMiss 0).2).2.cache := by
  have h := stale_cache_duplicate sCacheMiss 0 (by decide) (by decide)
  exact ⟨h.2.2.1, h.2.1⟩

/-! ### Error propagation -/

theorem syncE_exists_ok (e : EState) : ∃ e', syncE e = Except.ok e' := by
  by_cases h : e.fail.collPut
  · exact ⟨e, by simp [syncE, h]⟩
  · exact ⟨{ e with st := syncOp e.st }, by simp [syncE, h]⟩

/-- C6 counterexample: with the collection PUT failing, `save` of an
identity-present record still resolves successfully and the state is
unchanged — the failed write is silently lost, it does not surface as a
rejection of save's promise. -/
theorem errorProp_counterexample :
    eSaveFail.fail.collPut = true ∧
    saveE eSaveFail 0 = Except.ok (0, eSaveFail) :=
  ⟨rfl, rfl⟩

/-- C6 (amended): awaited round trips propagate transport failures — the
collection GET (findAll and everything built on it), the pool GET, the
pool PUT of an increment, and the collection DELETE each reject the
operation's promise; nothing is caught or retried.  But the collection
PUT issued by save/delete's `sync` and the pool-initialisation PATCH are
fire-and-forget: their failure never surfaces (the operation still
resolves) and the write is silently lost. -/
theorem errorProp_spec (e : EState) (r : Ref) (n : Nat) :
    (e.fail.collGet = true → (findAllE e).isOk = false) ∧
    (e.fail.uuidGet = true → (uuidNextE e).isOk = false) ∧
    (e.fail.uuidGet = false → e.fail.uuidPut = true → e.st.storeUuid = some n →
      (uuidNextE e).isOk = false) ∧
    (e.fail.collDelete = true → (deleteAllE e).isOk = false) ∧
    (r ∈ e.st.cache → (saveE e r).isOk = true) ∧
    (e.fail.collGet = false → e.fail.uuidGet = false → e.fail.uuidPut = false →
      (saveE e r).isOk = true) ∧
    (e.fail.collGet = false → (deleteE e r).isOk = true) ∧
    (e.fail.uuidGet = false → e.st.storeUuid = none → e.fail.uuidPatch = true →
      uuidNextE e = Except.ok (1, e)) := by
  refine ⟨?_, ?_, ?_, ?_, ?_, ?_, ?_, ?_⟩
  · intro h
    simp [findAllE, h, Except.isOk, Except.toBool]
  · intro h
    simp [uuidNextE, h, Except.isOk, Except.toBool]
  · intro hg hp hs
    simp [uuidNextE, hg, hs, updateIdPoolE, hp, Except.isOk, Except.toBool,
      Bind.bind, Except.bind]
  · intro h
    simp [deleteAllE, h, Except.isOk, Except.toBool]
  · intro hc
    cases hcp : e.fail.collPut <;>
      simp [saveE, hc, syncE, hcp, Except.isOk, Except.toBool, Bind.bind,
        Except.bind]
  · intro hg hug hup
    by_cases hc : r ∈ e.st.cache
    · cases hcp : e.fail.collPut <;>
        simp [saveE, hc, syncE, hcp, Except.isOk, Except.toBool, Bind.bind,
          Except.bind]
    · cases hsp : e.st.storeUuid with
      | none =>
        cases hpp : e.fail.uuidPatch <;> cases hcp : e.fail.collPut <;>
          simp [saveE, hc, findAllE, hg, uuidNextE, hug, resetIdPoolE, hpp,
            syncE, hcp, hsp, findAllOp_storeUuid, Except.isOk, Except.toBool,
            Bind.bind, Except.bind]
      | some m =>
        cases hcp : e.fail.collPut <;>
          simp [saveE, hc, findAllE, hg, uuidNextE, hug, updateIdPoolE, hup,
            syncE, hcp, hsp, findAllOp_storeUuid, Except.isOk, Except.toBool,
            Bind.bind, Except.bind]
  · intro hg
    rcases hf : (findAllOp e.st).1.find?
        (fun x => (getRec (findAllOp e.st).2 x).id == (getRec (findAllOp e.st).2 r).id)
        with _ | tb
    · simp [deleteE, findAllE, hg, hf, Except.isOk, Except.toBool, Bind.bind,
        Except.bind]
    · cases hcp : e.fail.collPut <;>
        simp [deleteE, findAllE, hg, hf, syncE, hcp, Except.isOk, Except.toBool,
          Bind.bind, Except.bind]
  · intro hg hs hp
    simp [uuidNextE, hg, hs, resetIdPoolE, hp]

/-- Witness for C6 (amended): each propagation and each swallow exhibited
at a concrete state. -/
theorem errorProp_spec_witness :
    (findAllE ⟨sPoolAbsent, fGetFails⟩).isOk = false ∧
    (uuidNextE ⟨sPoolAbsent, fUuidGetFails⟩).isOk = false ∧
    (uuidNextE ⟨sPoolFive, fUuidPutFails⟩).isOk = false ∧
    (deleteAllE ⟨sPoolAbsent, fDeleteFails⟩).isOk = false ∧
    (saveE eSaveFail 0).isOk = true ∧
    (saveE ⟨sCacheMiss, fPutFails⟩ 0).isOk = true ∧
    (deleteE ⟨sTwoRows, fPutFails⟩ 0).isOk = true ∧
    uuidNextE ⟨sPoolAbsent, fPatchFails⟩
      = Except.ok (1, ⟨sPoolAbsent, fPatchFails⟩) :=
  ⟨(errorProp_spec ⟨sPoolAbsent, fGetFails⟩ 0 0).1 rfl,
   (errorProp_spec ⟨sPoolAbsent, fUuidGetFails⟩ 0 0).2.1 rfl,
   (errorProp_spec ⟨sPoolFive, fUuidPutFails⟩ 0 5).2.2.1 rfl rfl rfl,
   (errorProp_spec ⟨sPoolAbsent, fDeleteFails⟩ 0 0).2.2.2.1 rfl,
   (errorProp_spec eSaveFail 0 0).2.2.2.2.1 (by decide),
   (errorProp_spec ⟨sCacheMiss, fPutFails⟩ 0 0).2.2.2.2.2.1 rfl rfl rfl,
   (errorProp_spec ⟨sTwoRows, fPutFails⟩ 0 0).2.2.2.2.2.2.1 rfl,
   (errorProp_spec ⟨sPoolAbsent, fPatchFails⟩ 0 0).2.2.2.2.2.2.2 rfl rfl rfl⟩

end ORMSpec
